import Mathlib

/-!
Verification of the beam HTTP server core: a shallow embedding of the
request parser, the response serializer (`source/http.c`) and the generic
growable vector (`source/container/vec.c`), together with theorems settling
the specification claims.

Modelling conventions:
* A parse cursor is a pair of the byte list from the current position
  onward and the remaining size `rem` (mirroring `raw_request_str` and
  `*remaining_size`).  Advancing by `k` drops `k` list elements and
  subtracts `k` from `rem`.
* `memchr p c n` searches only the first `n` bytes, as C `memchr` does.
* A read at an index past the list end (C reads past `remaining_size`,
  e.g. `header_end[1]`) yields the NUL byte, matching the zero-initialised
  receive buffer in `source/main.c`.
* `size_t` is modelled as `Nat`; allocation (`malloc`/`realloc`/`strndup`)
  is modelled as always succeeding.
* A C function that returns `NULL` without touching `*remaining_size`
  is modelled as `.fail rem` carrying the final value of `*remaining_size`;
  an infinite loop is modelled as `.hang`.
-/

namespace Beam

/-- NUL byte, used for reads past the end of the modelled buffer and for
`memset(..., 0, ...)` on byte buffers. -/
def nul : Char := Char.ofNat 0

/-- Read byte `i` of the buffer; past-the-end reads give `nul`. -/
def byteAt (buf : List Char) (i : Nat) : Char := buf.getD i nul

/-- C `memchr(p, c, n)`: index of the first occurrence of `c` among the
first `n` bytes, if any. -/
def memchr (buf : List Char) (n : Nat) (c : Char) : Option Nat :=
  List.findIdx? (fun b => b = c) (buf.take n)

/-- C pointer comparison `p >= q` where `q` came from `memchr` and may be
`NULL` (address 0): against `NULL` every pointer into the buffer compares
greater or equal. -/
def geNullable (p : Nat) (q : Option Nat) : Bool :=
  match q with
  | none => true
  | some i => i ≤ p

/-- Result of one parse phase: the C functions return an advanced pointer
plus updated `*remaining_size` on success, `NULL` with `*remaining_size`
untouched on failure; `hang` marks an infinite loop. -/
inductive PRes (α : Type) where
  | ok (a : α) (buf : List Char) (rem : Nat)
  | fail (rem : Nat)
  | hang
deriving DecidableEq

/-- `HttpRequestMethod` from `include/beam/http.h`. -/
inductive HttpRequestMethod where
  | GET | POST | DELETE | PUT | PATCH | HEAD | OPTIONS | CONNECT | TRACE | UNKNOWN
deriving DecidableEq

/-- `HttpRequestMethodParse` from `source/http.c`.  Note three source
quirks kept faithfully: the missing-CRLF check only logs (no early
return), so a buffer with no `'\r'` makes `line_end` NULL and the later
`method_end >= line_end` pointer comparison is then always true;
`PATCH` and `TRACE` advance by 7 (token length 5 plus 2); there is no
case for `HEAD`, which therefore classifies as `UNKNOWN`. -/
def HttpRequestMethodParse (buf : List Char) (rem : Nat) :
    PRes HttpRequestMethod :=
  if rem = 0 then .fail rem
  else
    let lineEnd := memchr buf rem '\r'
    match memchr buf rem ' ' with
    | none => .fail rem
    | some methodEnd =>
      -- `method_end >= line_end`; with `line_end = NULL` (address 0) the
      -- comparison holds for every pointer into the buffer.
      if geNullable methodEnd lineEnd then .fail rem
      else if methodEnd = 0 then .fail rem
      else if methodEnd = 7 then
        if buf.take 7 = "OPTIONS".toList then
          .ok .OPTIONS (buf.drop 8) (rem - 8)
        else if buf.take 7 = "CONNECT".toList then
          .ok .CONNECT (buf.drop 8) (rem - 8)
        else .ok .UNKNOWN buf rem
      else if methodEnd = 6 then
        if buf.take 6 = "DELETE".toList then
          .ok .DELETE (buf.drop 7) (rem - 7)
        else .ok .UNKNOWN buf rem
      else if methodEnd = 5 then
        if buf.take 5 = "PATCH".toList then
          .ok .PATCH (buf.drop 7) (rem - 7)
        else if buf.take 5 = "TRACE".toList then
          .ok .TRACE (buf.drop 7) (rem - 7)
        else .ok .UNKNOWN buf rem
      else if methodEnd = 4 then
        if buf.take 4 = "POST".toList then
          .ok .POST (buf.drop 5) (rem - 5)
        else .ok .UNKNOWN buf rem
      else if methodEnd = 3 then
        if buf.take 3 = "GET".toList then
          .ok .GET (buf.drop 4) (rem - 4)
        else if buf.take 3 = "PUT".toList then
          .ok .PUT (buf.drop 4) (rem - 4)
        else .ok .UNKNOWN buf rem
      else .ok .UNKNOWN buf rem

/-- `HttpUrlParse` from `source/http.c`.  The missing-CRLF check again
only logs; the URL is duplicated with `strndup` (here `List.take`); note
the source has no emptiness check on the token. -/
def HttpUrlParse (buf : List Char) (rem : Nat) : PRes (List Char) :=
  if rem = 0 then .fail rem
  else
    let lineEnd := memchr buf rem '\r'
    match memchr buf rem ' ' with
    | none => .fail rem
    | some urlEnd =>
      if geNullable urlEnd lineEnd then .fail rem
      else .ok (buf.take urlEnd) (buf.drop (urlEnd + 1)) (rem - (urlEnd + 1))

/-- `HttpVersionValidate` from `source/http.c`: requires the literal
10-byte sequence `HTTP/1.1\r\n`. -/
def HttpVersionValidate (buf : List Char) (rem : Nat) : PRes Unit :=
  if rem < 10 then .fail rem
  else if buf.take 10 = "HTTP/1.1\r\n".toList then
    .ok () (buf.drop 10) (rem - 10)
  else .fail rem

/-- `HttpHeader` from `include/beam/http.h` (both strings owned). -/
structure HttpHeader where
  key : List Char
  value : List Char
deriving DecidableEq

/-- `HttpHeaderParse` from `source/http.c`.  On success the pair is the
header written through the out-parameter (`none` on the `rem = 0` early
return, which leaves it untouched) and whether `*more_headers_remain`
was set to `false`.  The terminating CRLF test happens only after a
header has been parsed. -/
def HttpHeaderParse (buf : List Char) (rem : Nat) :
    PRes (Option HttpHeader × Bool) :=
  if rem = 0 then .ok (none, false) buf rem
  else
    match memchr buf rem '\r' with
    | none => .fail rem
    | some he =>
      if byteAt buf (he + 1) ≠ '\n' then .fail rem
      else if he < 3 then .fail rem
      else
        match memchr buf rem ':' with
        | none => .fail rem
        | some ke =>
          if ke > he then .fail rem
          else if byteAt buf (ke + 1) ≠ ' ' then .fail rem
          else if ke = 0 then .fail rem
          else
            let buf1 := buf.drop (ke + 2)
            let rem1 := rem - (ke + 2)
            match memchr buf1 rem1 '\r' with
            | none => .fail rem
            | some ve =>
              if byteAt buf1 (ve + 1) ≠ '\n' then .fail rem
              else if ve = 0 then .fail rem
              else
                let buf2 := buf1.drop (ve + 2)
                let rem2 := rem1 - (ve + 2)
                let hdr : HttpHeader := ⟨buf.take ke, buf1.take ve⟩
                if byteAt buf2 0 = '\r' ∧ byteAt buf2 1 = '\n' then
                  .ok (some hdr, true) (buf2.drop 2) (rem2 - 2)
                else .ok (some hdr, false) buf2 rem2

/-- The `while(more_headers_remain)` loop of `HttpHeadersParseAll`.
When `rem = 0` and the flag is still set, `HttpHeaderParse` returns
success without advancing or clearing the flag, so the C loop never
terminates: modelled as `.hang`.  The parsed header is pushed after
every successful call, exactly as `VecPush` is invoked in the source. -/
def HttpHeadersLoop :
    Nat → List HttpHeader → List Char → Nat → PRes (List HttpHeader)
  | 0, _, _, _ => .hang
  | fuel + 1, acc, buf, rem =>
    if rem = 0 then .hang
    else
      match HttpHeaderParse buf rem with
      | .fail _ => .fail rem
      | .hang => .hang
      | .ok (hdrOpt, stop) buf' rem' =>
        let acc' := acc ++ [hdrOpt.getD ⟨[], []⟩]
        if stop then .ok acc' buf' rem'
        else HttpHeadersLoop fuel acc' buf' rem'

/-- `HttpHeadersParseAll` from `source/http.c`.  On `rem = 0` it returns
success without even initialising the vector (result `none`); on an
inner failure the caller-visible remaining size is the original one. -/
def HttpHeadersParseAll (buf : List Char) (rem : Nat) :
    PRes (Option (List HttpHeader)) :=
  if rem = 0 then .ok none buf rem
  else
    match HttpHeadersLoop (rem + 1) [] buf rem with
    | .ok hdrs buf' rem' => .ok (some hdrs) buf' rem'
    | .fail _ => .fail rem
    | .hang => .hang

/-- `HttpRequest` from `include/beam/http.h`; `headers = none` models the
field being left uninitialised by the `rem = 0` early return of
`HttpHeadersParseAll`, and a `none` request one left entirely untouched. -/
structure HttpRequest where
  method : HttpRequestMethod
  url : List Char
  headers : Option (List HttpHeader)
  request_size : Nat
deriving DecidableEq

/-- `HttpRequestParse` from `source/http.c`: the four phases composed in
order; any phase failure aborts with the original remaining size; on
`rem = 0` it returns the input pointer (success) with the request left
untouched. -/
def HttpRequestParse (buf : List Char) (rem : Nat) :
    PRes (Option HttpRequest) :=
  if rem = 0 then .ok none buf rem
  else
    match HttpRequestMethodParse buf rem with
    | .fail _ => .fail rem
    | .hang => .hang
    | .ok m buf1 rem1 =>
      match HttpUrlParse buf1 rem1 with
      | .fail _ => .fail rem
      | .hang => .hang
      | .ok u buf2 rem2 =>
        match HttpVersionValidate buf2 rem2 with
        | .fail _ => .fail rem
        | .hang => .hang
        | .ok _ buf3 rem3 =>
          match HttpHeadersParseAll buf3 rem3 with
          | .fail _ => .fail rem
          | .hang => .hang
          | .ok hs buf4 rem4 =>
            .ok (some ⟨m, u, hs, rem⟩) buf4 rem4

/-- The method tokens `HttpRequestMethodParse` actually recognizes and
consumes (all the spec's nine verbs except `HEAD`, which has no case in
the source's classification). -/
def recognizedMethodTokens : List (List Char) :=
  ["GET".toList, "PUT".toList, "POST".toList, "DELETE".toList,
   "OPTIONS".toList, "CONNECT".toList, "PATCH".toList, "TRACE".toList]

/-- A wire message of the shape `M U HTTP/1.1\r\nK: V\r\n\r\n` (method
token, URL token, version line, one header, terminating blank line). -/
def validMessage (M U K V : List Char) : List Char :=
  M ++ ' ' :: (U ++ ' ' :: ("HTTP/1.1\r\n".toList ++
    (K ++ ':' :: ' ' :: V ++ '\r' :: '\n' :: '\r' :: '\n' :: [])))

/-- `HttpResponseCode` from `include/beam/http.h`. -/
inductive HttpResponseCode where
  | CONTINUE | SWITCHING_PROTOCOLS | PROCESSING | EARLY_HINTS
  | OK | CREATED | ACCEPTED | NON_AUTHORITATIVE_INFORMATION | NO_CONTENT
  | RESET_CONTENT | PARTIAL_CONTENT | MULTI_STATUS | ALREADY_REPORTED | IM_USED
  | MULTIPLE_CHOICES | MOVED_PERMANENTLY | FOUND | SEE_OTHER | NOT_MODIFIED
  | USE_PROXY | TEMPORARY_REDIRECT | PERMANENT_REDIRECT
  | BAD_REQUEST | UNAUTHORIZED | PAYMENT_REQUIRED | FORBIDDEN | NOT_FOUND
  | METHOD_NOT_ALLOWED | NOT_ACCEPTABLE | PROXY_AUTHENTICATION_REQUIRED
  | REQUEST_TIMEOUT | CONFLICT | GONE | LENGTH_REQUIRED | PRECONDITION_FAILED
  | PAYLOAD_TOO_LARGE | URI_TOO_LONG | UNSUPPORTED_MEDIA_TYPE
  | RANGE_NOT_SATISFIABLE | EXPECTATION_FAILED | IM_A_TEAPOT
  | MISDIRECTED_REQUEST | UNPROCESSABLE_ENTITY | LOCKED | FAILED_DEPENDENCY
  | TOO_EARLY | UPGRADE_REQUIRED | PRECONDITION_REQUIRED | TOO_MANY_REQUESTS
  | REQUEST_HEADER_FIELDS_TOO_LARGE | UNAVAILABLE_FOR_LEGAL_REASONS
  | INTERNAL_SERVER_ERROR | NOT_IMPLEMENTED | BAD_GATEWAY | SERVICE_UNAVAILABLE
  | GATEWAY_TIMEOUT | HTTP_VERSION_NOT_SUPPORTED | VARIANT_ALSO_NEGOTIATES
  | INSUFFICIENT_STORAGE | LOOP_DETECTED | NOT_EXTENDED
  | NETWORK_AUTHENTICATION_REQUIRED
deriving DecidableEq

/-- `HttpResponseCodeToString` from `source/http.c`: reason-phrase table
(the `default: NULL` branch is unreachable for a value of the enum). -/
def HttpResponseCodeToString (code : HttpResponseCode) : Option String :=
  match code with
  | .CONTINUE => some "100 Continue"
  | .SWITCHING_PROTOCOLS => some "101 Switching Protocols"
  | .PROCESSING => some "102 Processing"
  | .EARLY_HINTS => some "103 Early Hints"
  | .OK => some "200 OK"
  | .CREATED => some "201 Created"
  | .ACCEPTED => some "202 Accepted"
  | .NON_AUTHORITATIVE_INFORMATION => some "203 Non-Authoritative Information"
  | .NO_CONTENT => some "204 No Content"
  | .RESET_CONTENT => some "205 Reset Content"
  | .PARTIAL_CONTENT => some "206 Partial Content"
  | .MULTI_STATUS => some "207 Multi-Status"
  | .ALREADY_REPORTED => some "208 Already Reported"
  | .IM_USED => some "226 IM Used"
  | .MULTIPLE_CHOICES => some "300 Multiple Choices"
  | .MOVED_PERMANENTLY => some "301 Moved Permanently"
  | .FOUND => some "302 Found"
  | .SEE_OTHER => some "303 See Other"
  | .NOT_MODIFIED => some "304 Not Modified"
  | .USE_PROXY => some "305 Use Proxy"
  | .TEMPORARY_REDIRECT => some "307 Temporary Redirect"
  | .PERMANENT_REDIRECT => some "308 Permanent Redirect"
  | .BAD_REQUEST => some "400 Bad Request"
  | .UNAUTHORIZED => some "401 Unauthorized"
  | .PAYMENT_REQUIRED => some "402 Payment Required"
  | .FORBIDDEN => some "403 Forbidden"
  | .NOT_FOUND => some "404 Not Found"
  | .METHOD_NOT_ALLOWED => some "405 Method Not Allowed"
  | .NOT_ACCEPTABLE => some "406 Not Acceptable"
  | .PROXY_AUTHENTICATION_REQUIRED => some "407 Proxy Authentication Required"
  | .REQUEST_TIMEOUT => some "408 Request Timeout"
  | .CONFLICT => some "409 Conflict"
  | .GONE => some "410 Gone"
  | .LENGTH_REQUIRED => some "411 Length Required"
  | .PRECONDITION_FAILED => some "412 Precondition Failed"
  | .PAYLOAD_TOO_LARGE => some "413 Payload Too Large"
  | .URI_TOO_LONG => some "414 URI Too Long"
  | .UNSUPPORTED_MEDIA_TYPE => some "415 Unsupported Media Type"
  | .RANGE_NOT_SATISFIABLE => some "416 Range Not Satisfiable"
  | .EXPECTATION_FAILED => some "417 Expectation Failed"
  | .IM_A_TEAPOT => some "418 I\x27m a teapot"
  | .MISDIRECTED_REQUEST => some "421 Misdirected Request"
  | .UNPROCESSABLE_ENTITY => some "422 Unprocessable Entity"
  | .LOCKED => some "423 Locked"
  | .FAILED_DEPENDENCY => some "424 Failed Dependency"
  | .TOO_EARLY => some "425 Too Early"
  | .UPGRADE_REQUIRED => some "426 Upgrade Required"
  | .PRECONDITION_REQUIRED => some "428 Precondition Required"
  | .TOO_MANY_REQUESTS => some "429 Too Many Requests"
  | .REQUEST_HEADER_FIELDS_TOO_LARGE =>
      some "431 Request Header Fields Too Large"
  | .UNAVAILABLE_FOR_LEGAL_REASONS =>
      some "451 Unavailable For Legal Reasons"
  | .INTERNAL_SERVER_ERROR => some "500 Internal Server Error"
  | .NOT_IMPLEMENTED => some "501 Not Implemented"
  | .BAD_GATEWAY => some "502 Bad Gateway"
  | .SERVICE_UNAVAILABLE => some "503 Service Unavailable"
  | .GATEWAY_TIMEOUT => some "504 Gateway Timeout"
  | .HTTP_VERSION_NOT_SUPPORTED => some "505 HTTP Version Not Supported"
  | .VARIANT_ALSO_NEGOTIATES => some "506 Variant Also Negotiates"
  | .INSUFFICIENT_STORAGE => some "507 Insufficient Storage"
  | .LOOP_DETECTED => some "508 Loop Detected"
  | .NOT_EXTENDED => some "510 Not Extended"
  | .NETWORK_AUTHENTICATION_REQUIRED =>
      some "511 Network Authentication Required"

/-- `HttpContentType` from `include/beam/http.h`. -/
inductive HttpContentType where
  | TEXT_HTML | TEXT_PLAIN | TEXT_CSS | TEXT_JAVASCRIPT
  | APPLICATION_JSON | APPLICATION_XML | APPLICATION_JAVASCRIPT
  | APPLICATION_PDF | APPLICATION_OCTET_STREAM
  | APPLICATION_X_WWW_FORM_URLENCODED | APPLICATION_ZIP
  | APPLICATION_MS_EXCEL | APPLICATION_OPENXML_SPREADSHEET
  | IMAGE_JPEG | IMAGE_PNG | IMAGE_GIF | IMAGE_BMP | IMAGE_WEBP | IMAGE_SVG_XML
  | AUDIO_MPEG | AUDIO_OGG | AUDIO_WAV
  | VIDEO_MP4 | VIDEO_OGG | VIDEO_WEBM
  | MULTIPART_FORM_DATA | MULTIPART_BYTERANGES
  | FONT_WOFF | FONT_WOFF2 | APPLICATION_FONT_WOFF
  | APPLICATION_LD_JSON | APPLICATION_GRAPHQL | TEXT_CSV
deriving DecidableEq

/-- `HttpContentTypeToString` from `source/http.c`: the switch covers
only 21 of the 32 enum values; the others fall to `default: NULL`. -/
def HttpContentTypeToString (type : HttpContentType) : Option String :=
  match type with
  | .TEXT_PLAIN => some "text/plain"
  | .TEXT_HTML => some "text/html"
  | .TEXT_CSS => some "text/css"
  | .TEXT_JAVASCRIPT => some "text/javascript"
  | .APPLICATION_JSON => some "application/json"
  | .APPLICATION_XML => some "application/xml"
  | .APPLICATION_JAVASCRIPT => some "application/javascript"
  | .APPLICATION_PDF => some "application/pdf"
  | .APPLICATION_ZIP => some "application/zip"
  | .APPLICATION_OCTET_STREAM => some "application/octet-stream"
  | .IMAGE_JPEG => some "image/jpeg"
  | .IMAGE_PNG => some "image/png"
  | .IMAGE_GIF => some "image/gif"
  | .IMAGE_BMP => some "image/bmp"
  | .IMAGE_SVG_XML => some "image/svg+xml"
  | .AUDIO_MPEG => some "audio/mpeg"
  | .AUDIO_OGG => some "audio/ogg"
  | .AUDIO_WAV => some "audio/wav"
  | .VIDEO_MP4 => some "video/mp4"
  | .VIDEO_WEBM => some "video/webm"
  | .VIDEO_OGG => some "video/ogg"
  | _ => none

/-- Overwrite the bytes of `l` starting at index `i` with `xs`; writes
past the end of `l` are dropped (all modelled call sites stay in
bounds).  Models `memcpy`/`memmove` destinations and `memset`. -/
def setSlice {α : Type} : List α → Nat → List α → List α
  | [], _, _ => []
  | a :: l, 0, [] => a :: l
  | _ :: l, 0, x :: xs => x :: setSlice l 0 xs
  | a :: l, i + 1, xs => a :: setSlice l i xs

/-- Read `n` elements of `l` starting at index `i` (source operand of a
`memcpy`/`memmove`). -/
def readSlice {α : Type} (l : List α) (i n : Nat) : List α :=
  (l.drop i).take n

/-- `HttpResponse` from `include/beam/http.h`, restricted to the fields
`HttpResponseSend` reads (`body_capacity` is not read by it).  Headers
are carried but — see the `TODO` in the source — never serialized. -/
structure HttpResponse where
  content_type : HttpContentType
  status_code : HttpResponseCode
  headers : List HttpHeader
  body : List Char
deriving DecidableEq

/-- The status/server/content-type/content-length block that the two
`snprintf` calls in `HttpResponseSend` format (`body.length` plays
`response->body_size`). -/
def HttpResponseHeaderText (rc ct : String) (bodyLen : Nat) : List Char :=
  ("HTTP/1.1 " ++ rc ++ "\r\nServer: beam/0.1\r\nContent-Type: " ++ ct ++
   "\r\nContent-Length: " ++ Nat.repr bodyLen ++ "\r\n\r\n").toList

/-- `HttpResponseSend` from `source/http.c`, modelled as the byte
sequence handed to `send`.  Faithful details: the second `snprintf` is
given `total_send_size` (not `total_send_size + 1`), so it writes at
most `total_send_size - 1` characters plus a terminating NUL; the body
is then `memcpy`-ed at offset `http_response_size`; exactly
`total_send_size` bytes are sent.  The response's header list is never
emitted (`TODO: use headers here` in the source).  Unknown status code
or content type fails before any output. -/
def HttpResponseSend (response : HttpResponse) : Option (List Char) :=
  match HttpResponseCodeToString response.status_code,
        HttpContentTypeToString response.content_type with
  | some rc, some ct =>
    let hdr := HttpResponseHeaderText rc ct response.body.length
    let total := hdr.length + response.body.length
    -- malloc(total + 1); snprintf writes min(hdr.length, total - 1)
    -- characters and NUL-terminates; unwritten bytes stay as the zero
    -- bytes of the modelled fresh allocation.
    let printed := hdr.take (total - 1)
    let buffer := printed ++ List.replicate (total + 1 - printed.length) nul
    let buffer := setSlice buffer hdr.length response.body
    some (buffer.take total)
  | _, _ => none

/-- `GenericVec` from `include/beam/container/vec.h`, with elements of
type `α` instead of raw bytes.  `slots` is the allocated storage, so
`capacity = slots.length` and `data == NULL` iff `slots = []`.  The
`copy_init` hook is the optional deep-copy function applied to inserted
items; for `copy_deinit` only its presence matters here (its modelled
effect is the trace of released elements each operation reports). -/
structure GenericVec (α : Type) where
  slots : List α
  length : Nat
  copy_init : Option (α → α)
  has_copy_deinit : Bool

namespace GenericVec

/-- Allocated capacity of the vector. -/
def capacity {α : Type} (v : GenericVec α) : Nat := v.slots.length

/-- Element written into storage on insertion: through the `copy_init`
hook when present, by plain `memcpy` otherwise. -/
def copyIn {α : Type} (v : GenericVec α) (item : α) : α :=
  match v.copy_init with
  | some f => f item
  | none => item

end GenericVec

variable {α : Type}

/-- `expand_vec` from `source/container/vec.c`: on `length + 1 >
capacity` reallocate to `1` (from zero) or double, zero-filling the new
slots (`default` plays the zero byte pattern). -/
def expand_vec [Inhabited α] (v : GenericVec α) : GenericVec α :=
  if v.length + 1 > v.capacity then
    let n := if v.capacity = 0 then 1 else v.capacity * 2
    { v with slots := v.slots ++ List.replicate (n - v.capacity) default }
  else v

/-- `reserve_vec` from `source/container/vec.c`: grow to `n` slots when
`n > capacity`, preserving existing contents and zero-filling the rest. -/
def reserve_vec [Inhabited α] (v : GenericVec α) (n : Nat) : GenericVec α :=
  if n > v.capacity then
    { v with slots := v.slots ++ List.replicate (n - v.capacity) default }
  else v

/-- The `while(n2 < n) n2 <<= 1;` loop of `reserve_pow2_vec`, with
explicit fuel (the loop multiplies `n2` by two until it reaches `n`). -/
def pow2Loop : Nat → Nat → Nat → Nat
  | 0, n2, _ => n2
  | fuel + 1, n2, n => if n2 < n then pow2Loop fuel (n2 * 2) n else n2

/-- `reserve_pow2_vec` from `source/container/vec.c`: reserve for the
next power of two that is at least `n` (`n = 0` returns at once). -/
def reserve_pow2_vec [Inhabited α] (v : GenericVec α) (n : Nat) :
    GenericVec α :=
  if n = 0 then v
  else reserve_vec v (pow2Loop n 1 n)

/-- `insert_into_vec` from `source/container/vec.c`: expand, shift the
elements at and after `idx` one slot right (`memmove`), write the item
(through `copy_init` when present), bump `length`; `idx > length` is an
out-of-bounds failure. -/
def insert_into_vec [Inhabited α] (v : GenericVec α) (item : α) (idx : Nat) :
    Option (GenericVec α) :=
  let v := expand_vec v
  if idx < v.length then
    let slots := setSlice v.slots (idx + 1) (readSlice v.slots idx (v.length - idx))
    some { v with slots := setSlice slots idx [v.copyIn item],
                  length := v.length + 1 }
  else if idx = v.length then
    some { v with slots := setSlice v.slots idx [v.copyIn item],
                  length := v.length + 1 }
  else none

/-- `insert_fast_into_vec` from `source/container/vec.c`: expand, copy
the element at `idx` to the end slot, overwrite `idx` with the new item
(order not preserved), bump `length`. -/
def insert_fast_into_vec [Inhabited α] (v : GenericVec α) (item : α)
    (idx : Nat) : Option (GenericVec α) :=
  let v := expand_vec v
  if idx < v.length then
    let slots := setSlice v.slots v.length [v.slots.getD idx default]
    some { v with slots := setSlice slots idx [v.copyIn item],
                  length := v.length + 1 }
  else if idx = v.length then
    some { v with slots := setSlice v.slots idx [v.copyIn item],
                  length := v.length + 1 }
  else none

/-- `remove_range_vec` from `source/container/vec.c`.  `wantOut` models
a non-`NULL` `removed_data` destination.  The returned triple is the
updated vector, the bytes copied out to the destination (`none` when no
destination was supplied) and the elements passed to `copy_deinit`.
Kept faithfully from the source: after compacting, the final `memset`
zeroes `count` slots at offset `length - start - count` — not at
`length - count` — which for `start > 0` lands on surviving elements. -/
def remove_range_vec [Inhabited α] (v : GenericVec α) (wantOut : Bool)
    (start count : Nat) :
    Option (GenericVec α × Option (List α) × List α) :=
  if start + count > v.length then none
  else
    let removed := readSlice v.slots start count
    let step1 :=
      if wantOut then (v.slots, some removed, [])
      else if v.has_copy_deinit then (v.slots, none, removed)
      else (setSlice v.slots start (List.replicate count default), none, [])
    let slots1 := step1.1
    let slots2 :=
      setSlice slots1 start (readSlice slots1 (start + count) (v.length - start - count))
    let slots3 :=
      setSlice slots2 (v.length - start - count) (List.replicate count default)
    some ({ v with slots := slots3, length := v.length - count },
          step1.2.1, step1.2.2)

/-- `fast_remove_range_vec` from `source/container/vec.c`: as
`remove_range_vec` but the hole is filled by `memmove`-ing the last
`count` elements into it; the same trailing `memset` at offset
`length - start - count` is kept faithfully. -/
def fast_remove_range_vec [Inhabited α] (v : GenericVec α) (wantOut : Bool)
    (start count : Nat) :
    Option (GenericVec α × Option (List α) × List α) :=
  if start + count > v.length then none
  else
    let removed := readSlice v.slots start count
    let step1 :=
      if wantOut then (v.slots, some removed, [])
      else if v.has_copy_deinit then (v.slots, none, removed)
      else (setSlice v.slots start (List.replicate count default), none, [])
    let slots1 := step1.1
    let slots2 :=
      setSlice slots1 start (readSlice slots1 (v.length - count) count)
    let slots3 :=
      setSlice slots2 (v.length - start - count) (List.replicate count default)
    some ({ v with slots := slots3, length := v.length - count },
          step1.2.1, step1.2.2)

/-- `clear_vec` from `source/container/vec.c`: release every element
through `copy_deinit` when present (reported in the trace), otherwise
`memset` the whole capacity to zero; then `length = 0`, storage kept. -/
def clear_vec [Inhabited α] (v : GenericVec α) : GenericVec α × List α :=
  if v.slots.isEmpty then ({ v with length := 0 }, [])
  else if v.has_copy_deinit then
    ({ v with length := 0 }, readSlice v.slots 0 v.length)
  else
    ({ v with slots := List.replicate v.capacity default, length := 0 }, [])

/-- `qsort_vec` from `source/container/vec.c`: libc `qsort` over the
first `length` elements with comparator `comp` (some comparison sort;
modelled as an insertion sort by `comp ≤ 0`, slots past `length`
untouched). -/
def qsortInsert (le : α → α → Bool) (x : α) : List α → List α
  | [] => [x]
  | y :: l => if le x y then x :: y :: l else y :: qsortInsert le x l

/-- Insertion-sort core used to model `qsort`. -/
def qsortList (le : α → α → Bool) : List α → List α
  | [] => []
  | x :: l => qsortInsert le x (qsortList le l)

/-- `qsort_vec` itself. -/
def qsort_vec (v : GenericVec α) (comp : α → α → Int) : GenericVec α :=
  { v with slots :=
      qsortList (fun a b => comp a b ≤ 0) (v.slots.take v.length) ++
      v.slots.drop v.length }

/-- `swap_vec` from `source/container/vec.c`: bytewise swap of the
elements at `idx1` and `idx2`, both required to be below `length`. -/
def swap_vec [Inhabited α] (v : GenericVec α) (idx1 idx2 : Nat) :
    Option (GenericVec α) :=
  if idx1 ≥ v.length ∨ idx2 ≥ v.length then none
  else if idx1 = idx2 then some v
  else
    let a := v.slots.getD idx1 default
    let b := v.slots.getD idx2 default
    some { v with slots := setSlice (setSlice v.slots idx1 [b]) idx2 [a] }

/-- The `while(i--) swap(i, length - (i + 1))` loop of `reverse_vec`
(the swap's return value is ignored by the source). -/
def revLoop [Inhabited α] : Nat → GenericVec α → GenericVec α
  | 0, v => v
  | i + 1, v => revLoop i ((swap_vec v i (v.length - (i + 1))).getD v)

/-- `reverse_vec` from `source/container/vec.c`. -/
def reverse_vec [Inhabited α] (v : GenericVec α) : GenericVec α :=
  revLoop (v.length / 2) v

/-- `push_arr_vec` from `source/container/vec.c`: bulk insertion of
`count` items read from `arr` at position `pos`.  Faithful detail: when
inserting in the middle, the `memmove` shifts only `count` elements
(not `length - pos`), and the vacated `count` slots are zeroed before
the copy.  A `count` of zero is rejected by the argument check. -/
def push_arr_vec [Inhabited α] (v : GenericVec α) (arr : List α)
    (count pos : Nat) : Option (GenericVec α) :=
  if count = 0 then none
  else if pos > v.length then none
  else
    let v := reserve_pow2_vec v (v.length + count)
    let slots :=
      if pos < v.length then
        let moved := setSlice v.slots (pos + count) (readSlice v.slots pos count)
        setSlice moved pos (List.replicate count default)
      else v.slots
    let items := (arr.take count ++
      List.replicate (count - arr.length) default).map v.copyIn
    some { v with slots := setSlice slots pos items,
                  length := v.length + count }

/-- `resize_vec` from `source/container/vec.c`: shrinking removes the
trailing elements via `remove_range_vec` (its result is discarded, only
the in-place mutation counts) and then forces `length`; growing goes
through `reserve_pow2_vec`.  The second component is the trace of
elements passed to `copy_deinit`. -/
def resize_vec [Inhabited α] (v : GenericVec α) (new_size : Nat) :
    GenericVec α × List α :=
  if new_size ≤ v.capacity then
    if new_size < v.length then
      match remove_range_vec v false new_size (v.length - new_size) with
      | some (v', _, trace) => ({ v' with length := new_size }, trace)
      | none => ({ v with length := new_size }, [])
    else ({ v with length := new_size }, [])
  else
    ({ reserve_pow2_vec v new_size with length := new_size }, [])

/-! ### Generic list and `memchr` lemmas -/

theorem memchr_whole (buf : List Char) (c : Char) :
    memchr buf buf.length c = List.findIdx? (fun b => b = c) buf := by
  unfold memchr
  rw [List.take_length]

theorem findIdx?_no_hit (xs : List Char) (c : Char) (h : c ∉ xs) :
    List.findIdx? (fun b => b = c) xs = none := by
  rw [List.findIdx?_eq_none_iff]
  intro x hx
  simp only [decide_eq_false_iff_not]
  rintro rfl
  exact h hx

theorem memchr_split (xs ys : List Char) (c : Char) (h : c ∉ xs) :
    memchr (xs ++ c :: ys) (xs ++ c :: ys).length c = some xs.length := by
  rw [memchr_whole, List.findIdx?_append, findIdx?_no_hit xs c h]
  simp

theorem memchr_lower (xs ys : List Char) (c : Char) (hx : c ∉ xs)
    (hy : c ∈ ys) :
    ∃ j, memchr (xs ++ ys) (xs ++ ys).length c = some (xs.length + j) := by
  rw [memchr_whole, List.findIdx?_append, findIdx?_no_hit xs c hx]
  refine ⟨ys.findIdx (fun b => b = c), ?_⟩
  rw [List.findIdx?_eq_some_of_exists ⟨c, hy, by simp⟩]
  simp [Nat.add_comm]

theorem setSlice_length {α : Type} :
    ∀ (l : List α) (i : Nat) (xs : List α), (setSlice l i xs).length = l.length
  | [], _, _ => rfl
  | _ :: _, 0, [] => rfl
  | _ :: l, 0, _ :: xs => by simp [setSlice, setSlice_length l 0 xs]
  | _ :: l, i + 1, xs => by simp [setSlice, setSlice_length l i xs]

theorem byteAt_append (xs ys : List Char) (k : Nat) :
    byteAt (xs ++ ys) (xs.length + k) = byteAt ys k := by
  induction xs with
  | nil => simp [byteAt]
  | cons a xs ih =>
    have harith : (a :: xs).length + k = (xs.length + k) + 1 := by
      simp
      omega
    simp only [List.cons_append, byteAt, harith, List.getD_cons_succ]
    exact ih

/-! ### The method phase on a well-formed first line -/

theorem methodParse_GET (rest : List Char) (h : '\r' ∈ rest) :
    HttpRequestMethodParse ("GET".toList ++ ' ' :: rest)
      ("GET".toList ++ ' ' :: rest).length = .ok .GET rest rest.length := by
  obtain ⟨i, hi⟩ : ∃ i, List.findIdx? (fun b => b = '\r') rest = some i :=
    ⟨_, List.findIdx?_eq_some_of_exists ⟨'\r', h, by simp⟩⟩
  show HttpRequestMethodParse ('G' :: 'E' :: 'T' :: ' ' :: rest)
      ('G' :: 'E' :: 'T' :: ' ' :: rest).length = _
  unfold HttpRequestMethodParse
  rw [memchr_whole, memchr_whole]
  simp [List.findIdx?_cons, hi, geNullable]

theorem methodParse_PUT (rest : List Char) (h : '\r' ∈ rest) :
    HttpRequestMethodParse ("PUT".toList ++ ' ' :: rest)
      ("PUT".toList ++ ' ' :: rest).length = .ok .PUT rest rest.length := by
  obtain ⟨i, hi⟩ : ∃ i, List.findIdx? (fun b => b = '\r') rest = some i :=
    ⟨_, List.findIdx?_eq_some_of_exists ⟨'\r', h, by simp⟩⟩
  show HttpRequestMethodParse ('P' :: 'U' :: 'T' :: ' ' :: rest)
      ('P' :: 'U' :: 'T' :: ' ' :: rest).length = _
  unfold HttpRequestMethodParse
  rw [memchr_whole, memchr_whole]
  simp [List.findIdx?_cons, hi, geNullable]

theorem methodParse_POST (rest : List Char) (h : '\r' ∈ rest) :
    HttpRequestMethodParse ("POST".toList ++ ' ' :: rest)
      ("POST".toList ++ ' ' :: rest).length = .ok .POST rest rest.length := by
  obtain ⟨i, hi⟩ : ∃ i, List.findIdx? (fun b => b = '\r') rest = some i :=
    ⟨_, List.findIdx?_eq_some_of_exists ⟨'\r', h, by simp⟩⟩
  show HttpRequestMethodParse ('P' :: 'O' :: 'S' :: 'T' :: ' ' :: rest)
      ('P' :: 'O' :: 'S' :: 'T' :: ' ' :: rest).length = _
  unfold HttpRequestMethodParse
  rw [memchr_whole, memchr_whole]
  simp [List.findIdx?_cons, hi, geNullable]

theorem methodParse_DELETE (rest : List Char) (h : '\r' ∈ rest) :
    HttpRequestMethodParse ("DELETE".toList ++ ' ' :: rest)
      ("DELETE".toList ++ ' ' :: rest).length = .ok .DELETE rest rest.length := by
  obtain ⟨i, hi⟩ : ∃ i, List.findIdx? (fun b => b = '\r') rest = some i :=
    ⟨_, List.findIdx?_eq_some_of_exists ⟨'\r', h, by simp⟩⟩
  show HttpRequestMethodParse ('D' :: 'E' :: 'L' :: 'E' :: 'T' :: 'E' :: ' ' :: rest)
      ('D' :: 'E' :: 'L' :: 'E' :: 'T' :: 'E' :: ' ' :: rest).length = _
  unfold HttpRequestMethodParse
  rw [memchr_whole, memchr_whole]
  simp [List.findIdx?_cons, hi, geNullable]

theorem methodParse_OPTIONS (rest : List Char) (h : '\r' ∈ rest) :
    HttpRequestMethodParse ("OPTIONS".toList ++ ' ' :: rest)
      ("OPTIONS".toList ++ ' ' :: rest).length = .ok .OPTIONS rest rest.length := by
  obtain ⟨i, hi⟩ : ∃ i, List.findIdx? (fun b => b = '\r') rest = some i :=
    ⟨_, List.findIdx?_eq_some_of_exists ⟨'\r', h, by simp⟩⟩
  show HttpRequestMethodParse
      ('O' :: 'P' :: 'T' :: 'I' :: 'O' :: 'N' :: 'S' :: ' ' :: rest)
      ('O' :: 'P' :: 'T' :: 'I' :: 'O' :: 'N' :: 'S' :: ' ' :: rest).length = _
  unfold HttpRequestMethodParse
  rw [memchr_whole, memchr_whole]
  simp [List.findIdx?_cons, hi, geNullable]

theorem methodParse_CONNECT (rest : List Char) (h : '\r' ∈ rest) :
    HttpRequestMethodParse ("CONNECT".toList ++ ' ' :: rest)
      ("CONNECT".toList ++ ' ' :: rest).length = .ok .CONNECT rest rest.length := by
  obtain ⟨i, hi⟩ : ∃ i, List.findIdx? (fun b => b = '\r') rest = some i :=
    ⟨_, List.findIdx?_eq_some_of_exists ⟨'\r', h, by simp⟩⟩
  show HttpRequestMethodParse
      ('C' :: 'O' :: 'N' :: 'N' :: 'E' :: 'C' :: 'T' :: ' ' :: rest)
      ('C' :: 'O' :: 'N' :: 'N' :: 'E' :: 'C' :: 'T' :: ' ' :: rest).length = _
  unfold HttpRequestMethodParse
  rw [memchr_whole, memchr_whole]
  simp [List.findIdx?_cons, hi, geNullable]

theorem methodParse_PATCH (rest : List Char) (h : '\r' ∈ rest) :
    HttpRequestMethodParse ("PATCH".toList ++ ' ' :: rest)
      ("PATCH".toList ++ ' ' :: rest).length =
      .ok .PATCH (rest.drop 1) (rest.length - 1) := by
  obtain ⟨i, hi⟩ : ∃ i, List.findIdx? (fun b => b = '\r') rest = some i :=
    ⟨_, List.findIdx?_eq_some_of_exists ⟨'\r', h, by simp⟩⟩
  show HttpRequestMethodParse ('P' :: 'A' :: 'T' :: 'C' :: 'H' :: ' ' :: rest)
      ('P' :: 'A' :: 'T' :: 'C' :: 'H' :: ' ' :: rest).length = _
  unfold HttpRequestMethodParse
  rw [memchr_whole, memchr_whole]
  simp [List.findIdx?_cons, hi, geNullable]

theorem methodParse_TRACE (rest : List Char) (h : '\r' ∈ rest) :
    HttpRequestMethodParse ("TRACE".toList ++ ' ' :: rest)
      ("TRACE".toList ++ ' ' :: rest).length =
      .ok .TRACE (rest.drop 1) (rest.length - 1) := by
  obtain ⟨i, hi⟩ : ∃ i, List.findIdx? (fun b => b = '\r') rest = some i :=
    ⟨_, List.findIdx?_eq_some_of_exists ⟨'\r', h, by simp⟩⟩
  show HttpRequestMethodParse ('T' :: 'R' :: 'A' :: 'C' :: 'E' :: ' ' :: rest)
      ('T' :: 'R' :: 'A' :: 'C' :: 'E' :: ' ' :: rest).length = _
  unfold HttpRequestMethodParse
  rw [memchr_whole, memchr_whole]
  simp [List.findIdx?_cons, hi, geNullable]

theorem methodParse_unrecognized (T rest : List Char) (hT : T ≠ [])
    (hsp : ' ' ∉ T) (hcr : '\r' ∉ T)
    (hu : T ∉ recognizedMethodTokens) (h : '\r' ∈ rest) :
    HttpRequestMethodParse (T ++ ' ' :: rest) (T ++ ' ' :: rest).length =
      .ok .UNKNOWN (T ++ ' ' :: rest) (T ++ ' ' :: rest).length := by
  have hne : (T ++ ' ' :: rest).length ≠ 0 := by simp
  have hmsp := memchr_split T rest ' ' hsp
  have hshape : (T ++ [' ']) ++ rest = T ++ ' ' :: rest := by simp
  obtain ⟨j, hmcr⟩ := memchr_lower (T ++ [' ']) rest '\r'
    (by
      simp only [List.mem_append, List.mem_singleton, not_or]
      exact ⟨hcr, by decide⟩) h
  rw [hshape] at hmcr
  simp only [recognizedMethodTokens, List.mem_cons, List.not_mem_nil,
    not_or] at hu
  obtain ⟨hG, hP, hPo, hD, hO, hC, hPa, hTr, -⟩ := hu
  have hT0 : T.length ≠ 0 := by
    simpa [List.length_eq_zero] using hT
  unfold HttpRequestMethodParse
  rw [if_neg hne]
  dsimp only
  rw [hmsp, hmcr]
  have hge : geNullable T.length (some ((T ++ [' ']).length + j)) = false := by
    simp only [geNullable, List.length_append, List.length_singleton,
      decide_eq_false_iff_not, Nat.not_le]
    omega
  dsimp only
  rw [hge]
  simp only [Bool.false_eq_true, if_false, if_neg hT0]
  by_cases e7 : T.length = 7
  · rw [if_pos e7, List.take_left' e7, if_neg hO, if_neg hC]
  · rw [if_neg e7]
    by_cases e6 : T.length = 6
    · rw [if_pos e6, List.take_left' e6, if_neg hD]
    · rw [if_neg e6]
      by_cases e5 : T.length = 5
      · rw [if_pos e5, List.take_left' e5, if_neg hPa, if_neg hTr]
      · rw [if_neg e5]
        by_cases e4 : T.length = 4
        · rw [if_pos e4, List.take_left' e4, if_neg hPo]
        · rw [if_neg e4]
          by_cases e3 : T.length = 3
          · rw [if_pos e3, List.take_left' e3, if_neg hG, if_neg hP]
          · rw [if_neg e3]

/-! ### The URL, version and header phases on well-formed input -/

theorem urlParse_token (X rest : List Char) (hsp : ' ' ∉ X) (hcr : '\r' ∉ X)
    (h : '\r' ∈ rest) :
    HttpUrlParse (X ++ ' ' :: rest) (X ++ ' ' :: rest).length =
      .ok X rest rest.length := by
  have hne : (X ++ ' ' :: rest).length ≠ 0 := by simp
  have hmsp := memchr_split X rest ' ' hsp
  have hshape : (X ++ [' ']) ++ rest = X ++ ' ' :: rest := by simp
  obtain ⟨j, hmcr⟩ := memchr_lower (X ++ [' ']) rest '\r'
    (by
      simp only [List.mem_append, List.mem_singleton, not_or]
      exact ⟨hcr, by decide⟩) h
  rw [hshape] at hmcr
  unfold HttpUrlParse
  rw [if_neg hne]
  dsimp only
  rw [hmsp, hmcr]
  dsimp only
  have hge : geNullable X.length (some ((X ++ [' ']).length + j)) = false := by
    simp only [geNullable, List.length_append, List.length_singleton,
      decide_eq_false_iff_not, Nat.not_le]
    omega
  rw [hge]
  simp only [Bool.false_eq_true, if_false]
  congr 1
  · exact List.take_left X (' ' :: rest)
  · rw [← hshape]
    exact List.drop_left' (by simp)
  · simp
    omega

theorem versionValidate_ok (rest : List Char) :
    HttpVersionValidate ("HTTP/1.1\r\n".toList ++ rest)
      ("HTTP/1.1\r\n".toList ++ rest).length = .ok () rest rest.length := by
  unfold HttpVersionValidate
  rw [if_neg (by simp), if_pos (List.take_left' (by decide))]
  have hdrop : List.drop 10 ("HTTP/1.1\r\n".toList ++ rest) = rest :=
    List.drop_left' (by decide)
  have hlen : ("HTTP/1.1\r\n".toList ++ rest).length - 10 = rest.length := by
    rw [List.length_append,
      (show ("HTTP/1.1\r\n".toList).length = 10 by decide)]
    omega
  rw [hdrop, hlen]

theorem headerParse_single (K V : List Char) (hK : K ≠ []) (hKc : ':' ∉ K)
    (hKr : '\r' ∉ K) (hV : V ≠ []) (hVr : '\r' ∉ V) :
    HttpHeaderParse (K ++ ':' :: ' ' :: V ++ '\r' :: '\n' :: '\r' :: '\n' :: [])
      (K ++ ':' :: ' ' :: V ++ '\r' :: '\n' :: '\r' :: '\n' :: []).length =
      .ok (some ⟨K, V⟩, true) [] 0 := by
  have hK1 : 1 ≤ K.length := List.length_pos.2 hK
  have hV1 : 1 ≤ V.length := List.length_pos.2 hV
  set buf := K ++ ':' :: ' ' :: V ++ '\r' :: '\n' :: '\r' :: '\n' :: []
    with hbuf
  have hshape1 : buf = (K ++ ':' :: ' ' :: V) ++ '\r' :: '\n' :: '\r' :: '\n' :: [] := by
    simp [hbuf]
  have hcr1 : memchr buf buf.length '\r' = some (K ++ ':' :: ' ' :: V).length := by
    rw [hshape1]
    exact memchr_split _ _ '\r'
      (by
        simp only [List.mem_append, List.mem_cons, List.not_mem_nil, not_or]
        exact ⟨hKr, by decide, by decide, hVr⟩)
  have hhe : (K ++ ':' :: ' ' :: V).length = K.length + V.length + 2 := by
    simp
    omega
  have hne : buf.length ≠ 0 := by simp [hbuf]
  unfold HttpHeaderParse
  rw [if_neg hne, hcr1]
  dsimp only
  have hb1 : byteAt buf ((K ++ ':' :: ' ' :: V).length + 1) = '\n' := by
    rw [hshape1]
    simpa using byteAt_append (K ++ ':' :: ' ' :: V)
      ('\r' :: '\n' :: '\r' :: '\n' :: []) 1
  have hb1x : byteAt buf (K.length + (V.length + 1 + 1) + 1) = '\n' := by
    have hidx : K.length + (V.length + 1 + 1) + 1
        = (K ++ ':' :: ' ' :: V).length + 1 := by
      rw [hhe]
      omega
    rw [hidx]
    exact hb1
  rw [if_neg (by simp [hb1x])]
  rw [if_neg (by omega)]
  have hcol : memchr buf buf.length ':' = some K.length := by
    have h0 := memchr_split K (' ' :: (V ++ '\r' :: '\n' :: '\r' :: '\n' :: []))
      ':' hKc
    have hsh : K ++ ':' :: (' ' :: (V ++ '\r' :: '\n' :: '\r' :: '\n' :: []))
        = buf := by
      simp [hbuf]
    rw [hsh] at h0
    exact h0
  rw [hcol]
  dsimp only
  rw [if_neg (by rw [hhe]; omega)]
  have hb2 : byteAt buf (K.length + 1) = ' ' := by
    have hsh2 : buf = (K ++ [':']) ++ ' ' :: V ++ '\r' :: '\n' :: '\r' :: '\n' :: [] := by
      simp [hbuf]
    rw [hsh2]
    simpa using byteAt_append (K ++ [':'])
      (' ' :: V ++ '\r' :: '\n' :: '\r' :: '\n' :: []) 0
  rw [if_neg (by simp [hb2])]
  rw [if_neg (by omega)]
  have hdrop1 : buf.drop (K.length + 2) = V ++ '\r' :: '\n' :: '\r' :: '\n' :: [] := by
    have hsh3 : buf = (K ++ [':', ' ']) ++ (V ++ '\r' :: '\n' :: '\r' :: '\n' :: []) := by
      simp [hbuf]
    rw [hsh3]
    exact List.drop_left' (by simp)
  have hrem1 : buf.length - (K.length + 2) = V.length + 4 := by
    simp [hbuf]
    omega
  rw [hdrop1, hrem1]
  have hcr2 : memchr (V ++ '\r' :: '\n' :: '\r' :: '\n' :: []) (V.length + 4) '\r'
      = some V.length := by
    have := memchr_split V ('\n' :: '\r' :: '\n' :: []) '\r' hVr
    simpa using this
  rw [hcr2]
  dsimp only
  have hb3 : byteAt (V ++ '\r' :: '\n' :: '\r' :: '\n' :: []) (V.length + 1) = '\n' := by
    simpa using byteAt_append V ('\r' :: '\n' :: '\r' :: '\n' :: []) 1
  rw [if_neg (by simp [hb3])]
  rw [if_neg (by omega)]
  have hdrop2 : (V ++ '\r' :: '\n' :: '\r' :: '\n' :: []).drop (V.length + 2)
      = '\r' :: '\n' :: [] := by
    have hsh4 : V ++ '\r' :: '\n' :: '\r' :: '\n' :: []
        = (V ++ ['\r', '\n']) ++ ('\r' :: '\n' :: []) := by
      simp
    rw [hsh4]
    exact List.drop_left' (by simp)
  rw [hdrop2]
  have htk : buf.take K.length = K := by
    rw [hbuf, List.append_assoc]
    exact List.take_left K ((':' :: ' ' :: V) ++ '\r' :: '\n' :: '\r' :: '\n' :: [])
  have htv : (V ++ '\r' :: '\n' :: '\r' :: '\n' :: []).take V.length = V :=
    List.take_left V ('\r' :: '\n' :: '\r' :: '\n' :: [])
  rw [htk, htv]
  rw [if_pos (by exact ⟨rfl, rfl⟩)]
  simp

theorem headersAll_single (K V : List Char) (hK : K ≠ []) (hKc : ':' ∉ K)
    (hKr : '\r' ∉ K) (hV : V ≠ []) (hVr : '\r' ∉ V) :
    HttpHeadersParseAll
      (K ++ ':' :: ' ' :: V ++ '\r' :: '\n' :: '\r' :: '\n' :: [])
      (K ++ ':' :: ' ' :: V ++ '\r' :: '\n' :: '\r' :: '\n' :: []).length =
      .ok (some [⟨K, V⟩]) [] 0 := by
  have hne :
      (K ++ ':' :: ' ' :: V ++ '\r' :: '\n' :: '\r' :: '\n' :: []).length ≠ 0 := by
    simp
  have hloop : HttpHeadersLoop
      ((K ++ ':' :: ' ' :: V ++ '\r' :: '\n' :: '\r' :: '\n' :: []).length + 1)
      [] (K ++ ':' :: ' ' :: V ++ '\r' :: '\n' :: '\r' :: '\n' :: [])
      (K ++ ':' :: ' ' :: V ++ '\r' :: '\n' :: '\r' :: '\n' :: []).length =
      .ok [⟨K, V⟩] [] 0 := by
    unfold HttpHeadersLoop
    rw [if_neg hne, headerParse_single K V hK hKc hKr hV hVr]
    simp
  unfold HttpHeadersParseAll
  rw [if_neg hne, hloop]

/-- C1 (amended): for every message `M U HTTP/1.1\r\nK: V\r\n\r\n` whose
method token is one of the eight verbs the parser actually recognizes
(`HEAD` is missing from the source's classification, and an unrecognized
token makes the composed parse fail), parsing succeeds, the request holds
exactly the one header `{K, V}`, and the remaining length is zero. -/
theorem requestParse_valid_message (M U K V : List Char)
    (hM : M ∈ recognizedMethodTokens)
    (hU : U ≠ []) (hUsp : ' ' ∉ U) (hUcr : '\r' ∉ U)
    (hK : K ≠ []) (hKc : ':' ∉ K) (hKr : '\r' ∉ K)
    (hV : V ≠ []) (hVr : '\r' ∉ V) :
    ∃ m u, HttpRequestParse (validMessage M U K V) (validMessage M U K V).length
      = .ok (some ⟨m, u, some [⟨K, V⟩], (validMessage M U K V).length⟩) [] 0 := by
  have hcr_rest2 : '\r' ∈ "HTTP/1.1\r\n".toList ++
      (K ++ ':' :: ' ' :: V ++ '\r' :: '\n' :: '\r' :: '\n' :: []) :=
    List.mem_append_left _ (by decide)
  have hcr_rest : ∀ X : List Char, '\r' ∈ X ++ ' ' :: ("HTTP/1.1\r\n".toList ++
      (K ++ ':' :: ' ' :: V ++ '\r' :: '\n' :: '\r' :: '\n' :: [])) :=
    fun X => List.mem_append_right _ (List.mem_cons_of_mem _ hcr_rest2)
  simp only [recognizedMethodTokens, List.mem_cons, List.not_mem_nil,
    or_false] at hM
  rcases hM with rfl | rfl | rfl | rfl | rfl | rfl | rfl | rfl
  · refine ⟨.GET, U, ?_⟩
    unfold validMessage HttpRequestParse
    rw [if_neg (by simp), methodParse_GET _ (hcr_rest U)]
    dsimp only
    rw [urlParse_token U _ hUsp hUcr hcr_rest2]
    dsimp only
    rw [versionValidate_ok]
    dsimp only
    rw [headersAll_single K V hK hKc hKr hV hVr]
  · refine ⟨.PUT, U, ?_⟩
    unfold validMessage HttpRequestParse
    rw [if_neg (by simp), methodParse_PUT _ (hcr_rest U)]
    dsimp only
    rw [urlParse_token U _ hUsp hUcr hcr_rest2]
    dsimp only
    rw [versionValidate_ok]
    dsimp only
    rw [headersAll_single K V hK hKc hKr hV hVr]
  · refine ⟨.POST, U, ?_⟩
    unfold validMessage HttpRequestParse
    rw [if_neg (by simp), methodParse_POST _ (hcr_rest U)]
    dsimp only
    rw [urlParse_token U _ hUsp hUcr hcr_rest2]
    dsimp only
    rw [versionValidate_ok]
    dsimp only
    rw [headersAll_single K V hK hKc hKr hV hVr]
  · refine ⟨.DELETE, U, ?_⟩
    unfold validMessage HttpRequestParse
    rw [if_neg (by simp), methodParse_DELETE _ (hcr_rest U)]
    dsimp only
    rw [urlParse_token U _ hUsp hUcr hcr_rest2]
    dsimp only
    rw [versionValidate_ok]
    dsimp only
    rw [headersAll_single K V hK hKc hKr hV hVr]
  · refine ⟨.OPTIONS, U, ?_⟩
    unfold validMessage HttpRequestParse
    rw [if_neg (by simp), methodParse_OPTIONS _ (hcr_rest U)]
    dsimp only
    rw [urlParse_token U _ hUsp hUcr hcr_rest2]
    dsimp only
    rw [versionValidate_ok]
    dsimp only
    rw [headersAll_single K V hK hKc hKr hV hVr]
  · refine ⟨.CONNECT, U, ?_⟩
    unfold validMessage HttpRequestParse
    rw [if_neg (by simp), methodParse_CONNECT _ (hcr_rest U)]
    dsimp only
    rw [urlParse_token U _ hUsp hUcr hcr_rest2]
    dsimp only
    rw [versionValidate_ok]
    dsimp only
    rw [headersAll_single K V hK hKc hKr hV hVr]
  · obtain ⟨u, U', rfl⟩ := List.exists_cons_of_ne_nil hU
    refine ⟨.PATCH, U', ?_⟩
    unfold validMessage HttpRequestParse
    rw [if_neg (by simp), methodParse_PATCH _ (hcr_rest (u :: U'))]
    have hdrop : ((u :: U') ++ ' ' :: ("HTTP/1.1\r\n".toList ++
        (K ++ ':' :: ' ' :: V ++ '\r' :: '\n' :: '\r' :: '\n' :: []))).drop 1
        = U' ++ ' ' :: ("HTTP/1.1\r\n".toList ++
          (K ++ ':' :: ' ' :: V ++ '\r' :: '\n' :: '\r' :: '\n' :: [])) := rfl
    have hlen1 : ((u :: U') ++ ' ' :: ("HTTP/1.1\r\n".toList ++
        (K ++ ':' :: ' ' :: V ++ '\r' :: '\n' :: '\r' :: '\n' :: []))).length - 1
        = (U' ++ ' ' :: ("HTTP/1.1\r\n".toList ++
          (K ++ ':' :: ' ' :: V ++ '\r' :: '\n' :: '\r' :: '\n' :: []))).length := by
      simp
    rw [hdrop, hlen1]
    dsimp only
    rw [urlParse_token U' _ (fun hm => hUsp (List.mem_cons_of_mem u hm))
      (fun hm => hUcr (List.mem_cons_of_mem u hm)) hcr_rest2]
    dsimp only
    rw [versionValidate_ok]
    dsimp only
    rw [headersAll_single K V hK hKc hKr hV hVr]
  · obtain ⟨u, U', rfl⟩ := List.exists_cons_of_ne_nil hU
    refine ⟨.TRACE, U', ?_⟩
    unfold validMessage HttpRequestParse
    rw [if_neg (by simp), methodParse_TRACE _ (hcr_rest (u :: U'))]
    have hdrop : ((u :: U') ++ ' ' :: ("HTTP/1.1\r\n".toList ++
        (K ++ ':' :: ' ' :: V ++ '\r' :: '\n' :: '\r' :: '\n' :: []))).drop 1
        = U' ++ ' ' :: ("HTTP/1.1\r\n".toList ++
          (K ++ ':' :: ' ' :: V ++ '\r' :: '\n' :: '\r' :: '\n' :: [])) := rfl
    have hlen1 : ((u :: U') ++ ' ' :: ("HTTP/1.1\r\n".toList ++
        (K ++ ':' :: ' ' :: V ++ '\r' :: '\n' :: '\r' :: '\n' :: []))).length - 1
        = (U' ++ ' ' :: ("HTTP/1.1\r\n".toList ++
          (K ++ ':' :: ' ' :: V ++ '\r' :: '\n' :: '\r' :: '\n' :: []))).length := by
      simp
    rw [hdrop, hlen1]
    dsimp only
    rw [urlParse_token U' _ (fun hm => hUsp (List.mem_cons_of_mem u hm))
      (fun hm => hUcr (List.mem_cons_of_mem u hm)) hcr_rest2]
    dsimp only
    rw [versionValidate_ok]
    dsimp only
    rw [headersAll_single K V hK hKc hKr hV hVr]

/-- Witness for the amended C1 at the concrete message
`GET / HTTP/1.1\r\nHost: x\r\n\r\n`. -/
theorem requestParse_valid_message_witness :
    ("GET".toList ∈ recognizedMethodTokens ∧ "/".toList ≠ ([] : List Char) ∧
      "Host".toList ≠ ([] : List Char) ∧ "x".toList ≠ ([] : List Char)) ∧
    (∃ m u, HttpRequestParse
        (validMessage "GET".toList "/".toList "Host".toList "x".toList)
        (validMessage "GET".toList "/".toList "Host".toList "x".toList).length
      = .ok (some ⟨m, u, some [⟨"Host".toList, "x".toList⟩],
          (validMessage "GET".toList "/".toList "Host".toList
            "x".toList).length⟩) [] 0) :=
  ⟨⟨by decide, by decide, by decide, by decide⟩,
   requestParse_valid_message "GET".toList "/".toList "Host".toList "x".toList
     (by decide) (by decide) (by decide) (by decide) (by decide) (by decide)
     (by decide) (by decide) (by decide)⟩

/-- C4 (amended): on a first line `TOKEN SP ... CRLF`, the method phase
classifies eight of the nine known verbs to their enum value, consuming
the token plus one space for `GET`, `PUT`, `POST`, `DELETE`, `OPTIONS`
and `CONNECT` but token plus two bytes for `PATCH` and `TRACE`; `HEAD`
has no case in the source, so it falls — like every unrecognized token —
to `UNKNOWN` with nothing consumed (not a failure). -/
theorem methodParse_classification :
    (∀ rest : List Char, '\r' ∈ rest →
      HttpRequestMethodParse ("GET".toList ++ ' ' :: rest)
        ("GET".toList ++ ' ' :: rest).length = .ok .GET rest rest.length) ∧
    (∀ rest : List Char, '\r' ∈ rest →
      HttpRequestMethodParse ("PUT".toList ++ ' ' :: rest)
        ("PUT".toList ++ ' ' :: rest).length = .ok .PUT rest rest.length) ∧
    (∀ rest : List Char, '\r' ∈ rest →
      HttpRequestMethodParse ("POST".toList ++ ' ' :: rest)
        ("POST".toList ++ ' ' :: rest).length = .ok .POST rest rest.length) ∧
    (∀ rest : List Char, '\r' ∈ rest →
      HttpRequestMethodParse ("DELETE".toList ++ ' ' :: rest)
        ("DELETE".toList ++ ' ' :: rest).length = .ok .DELETE rest rest.length) ∧
    (∀ rest : List Char, '\r' ∈ rest →
      HttpRequestMethodParse ("OPTIONS".toList ++ ' ' :: rest)
        ("OPTIONS".toList ++ ' ' :: rest).length = .ok .OPTIONS rest rest.length) ∧
    (∀ rest : List Char, '\r' ∈ rest →
      HttpRequestMethodParse ("CONNECT".toList ++ ' ' :: rest)
        ("CONNECT".toList ++ ' ' :: rest).length = .ok .CONNECT rest rest.length) ∧
    (∀ rest : List Char, '\r' ∈ rest →
      HttpRequestMethodParse ("PATCH".toList ++ ' ' :: rest)
        ("PATCH".toList ++ ' ' :: rest).length =
        .ok .PATCH (rest.drop 1) (rest.length - 1)) ∧
    (∀ rest : List Char, '\r' ∈ rest →
      HttpRequestMethodParse ("TRACE".toList ++ ' ' :: rest)
        ("TRACE".toList ++ ' ' :: rest).length =
        .ok .TRACE (rest.drop 1) (rest.length - 1)) ∧
    (∀ T rest : List Char, T ≠ [] → ' ' ∉ T → '\r' ∉ T →
      T ∉ recognizedMethodTokens → '\r' ∈ rest →
      HttpRequestMethodParse (T ++ ' ' :: rest) (T ++ ' ' :: rest).length =
        .ok .UNKNOWN (T ++ ' ' :: rest) (T ++ ' ' :: rest).length) :=
  ⟨methodParse_GET, methodParse_PUT, methodParse_POST, methodParse_DELETE,
   methodParse_OPTIONS, methodParse_CONNECT, methodParse_PATCH,
   methodParse_TRACE, methodParse_unrecognized⟩

/-- Witness for the amended C4: `GET` is classified and consumed on a
concrete line, and `HEAD` — a known verb per the spec — yields `UNKNOWN`
with nothing consumed. -/
theorem methodParse_classification_witness :
    HttpRequestMethodParse ("GET".toList ++ ' ' :: "x\r".toList)
        ("GET".toList ++ ' ' :: "x\r".toList).length =
      .ok .GET "x\r".toList ("x\r".toList).length ∧
    HttpRequestMethodParse ("HEAD".toList ++ ' ' :: "x\r".toList)
        ("HEAD".toList ++ ' ' :: "x\r".toList).length =
      .ok .UNKNOWN ("HEAD".toList ++ ' ' :: "x\r".toList)
        ("HEAD".toList ++ ' ' :: "x\r".toList).length :=
  ⟨methodParse_classification.1 "x\r".toList (by decide),
   methodParse_classification.2.2.2.2.2.2.2.2 "HEAD".toList "x\r".toList
     (by decide) (by decide) (by decide) (by decide) (by decide)⟩

/-! ### Failure leaves the remaining size untouched (per phase) -/

set_option maxHeartbeats 1000000 in
theorem methodParse_fail_rem (buf : List Char) (rem r : Nat)
    (h : HttpRequestMethodParse buf rem = .fail r) : r = rem := by
  unfold HttpRequestMethodParse at h
  try dsimp only at h
  repeat' split at h
  all_goals simp_all

theorem urlParse_fail_rem (buf : List Char) (rem r : Nat)
    (h : HttpUrlParse buf rem = .fail r) : r = rem := by
  unfold HttpUrlParse at h
  try dsimp only at h
  repeat' split at h
  all_goals simp_all

theorem versionValidate_fail_rem (buf : List Char) (rem r : Nat)
    (h : HttpVersionValidate buf rem = .fail r) : r = rem := by
  unfold HttpVersionValidate at h
  try dsimp only at h
  repeat' split at h
  all_goals simp_all

theorem headerParse_fail_rem (buf : List Char) (rem r : Nat)
    (h : HttpHeaderParse buf rem = .fail r) : r = rem := by
  unfold HttpHeaderParse at h
  try dsimp only at h
  repeat' split at h
  all_goals simp_all

theorem headersParseAll_fail_rem (buf : List Char) (rem r : Nat)
    (h : HttpHeadersParseAll buf rem = .fail r) : r = rem := by
  unfold HttpHeadersParseAll at h
  try dsimp only at h
  repeat' split at h
  all_goals simp_all

theorem requestParse_fail_rem (buf : List Char) (rem r : Nat)
    (h : HttpRequestParse buf rem = .fail r) : r = rem := by
  unfold HttpRequestParse at h
  try dsimp only at h
  repeat' split at h
  all_goals simp_all

/-- C2: for every parse phase (method, URL, version, single header,
all-headers) and for the composed `HttpRequestParse`, failure leaves the
caller-visible remaining length exactly equal to its pre-call value. -/
theorem parse_failure_preserves_remaining :
    (∀ buf rem r, HttpRequestMethodParse buf rem = .fail r → r = rem) ∧
    (∀ buf rem r, HttpUrlParse buf rem = .fail r → r = rem) ∧
    (∀ buf rem r, HttpVersionValidate buf rem = .fail r → r = rem) ∧
    (∀ buf rem r, HttpHeaderParse buf rem = .fail r → r = rem) ∧
    (∀ buf rem r, HttpHeadersParseAll buf rem = .fail r → r = rem) ∧
    (∀ buf rem r, HttpRequestParse buf rem = .fail r → r = rem) :=
  ⟨methodParse_fail_rem, urlParse_fail_rem, versionValidate_fail_rem,
   headerParse_fail_rem, headersParseAll_fail_rem, requestParse_fail_rem⟩

/-- Witness for C2: the composed parse fails on the one-byte buffer
`"G"` and reports the original remaining size. -/
theorem parse_failure_preserves_remaining_witness :
    HttpRequestParse ['G'] 1 = .fail 1 ∧ (1 : Nat) = 1 :=
  ⟨by decide,
   parse_failure_preserves_remaining.2.2.2.2.2 ['G'] 1 1 (by decide)⟩

/-- C6: contrary to the claim, `HttpRequestParse` does not fail on every
input truncated before a required delimiter: the empty buffer and a
message ending right after the version line both return success (with
the request partially or not at all populated), and a message truncated
after a header line but before the terminating blank line makes the
header loop run forever. -/
theorem requestParse_truncated_inputs :
    HttpRequestParse [] 0 = .ok none [] 0 ∧
    HttpRequestParse "GET / HTTP/1.1\r\n".toList 16 =
      .ok (some ⟨.GET, "/".toList, none, 16⟩) [] 0 ∧
    HttpRequestParse "GET / HTTP/1.1\r\nK: V\r\n".toList 22 = .hang := by
  refine ⟨by decide, by decide, by decide⟩

/-- Counterexample to C5: the code rejects a request with zero headers —
on `GET / HTTP/1.1\r\n\r\n` (header phase starts at `\r\n`) the parse
fails instead of succeeding with an empty header list. -/
theorem requestParse_zero_headers_fails :
    HttpRequestParse "GET / HTTP/1.1\r\n\r\n".toList 18 = .fail 18 := by
  decide

/-- C5 (amended): when the header phase starts at a `\r\n` (with at
least two bytes remaining), `HttpHeadersParseAll` fails — the header
line is shorter than the minimum 3 bytes — so the terminating CRLF is
consumed only after at least one parsed header and `HttpRequestParse`
never accepts a request with zero headers. -/
theorem headersParseAll_crlf_at_start_fails (buf : List Char) (rem : Nat)
    (hrem : 2 ≤ rem) (h0 : byteAt buf 0 = '\r') (h1 : byteAt buf 1 = '\n') :
    HttpHeadersParseAll buf rem = .fail rem := by
  obtain ⟨rest, rfl⟩ : ∃ rest, buf = '\r' :: rest := by
    cases buf with
    | nil =>
      exfalso
      revert h0
      decide
    | cons a l =>
      refine ⟨l, ?_⟩
      simp only [byteAt, List.getD_cons_zero] at h0
      simp [h0]
  have hne : rem ≠ 0 := by omega
  have hmc : memchr ('\r' :: rest) rem '\r' = some 0 := by
    unfold memchr
    cases rem with
    | zero => omega
    | succ n => simp [List.take_succ_cons, List.findIdx?_cons]
  have hp : HttpHeaderParse ('\r' :: rest) rem = .fail rem := by
    unfold HttpHeaderParse
    rw [if_neg hne, hmc]
    simp [h1]
  have hloop : HttpHeadersLoop (rem + 1) [] ('\r' :: rest) rem = .fail rem := by
    unfold HttpHeadersLoop
    rw [if_neg hne, hp]
  unfold HttpHeadersParseAll
  rw [if_neg hne, hloop]

/-- Witness for the amended C5 at the concrete buffer `"\r\n"`. -/
theorem headersParseAll_crlf_at_start_fails_witness :
    (2 ≤ 2 ∧ byteAt ['\r', '\n'] 0 = '\r' ∧ byteAt ['\r', '\n'] 1 = '\n') ∧
    HttpHeadersParseAll ['\r', '\n'] 2 = .fail 2 :=
  ⟨⟨by decide, by decide, by decide⟩,
   headersParseAll_crlf_at_start_fails ['\r', '\n'] 2 (by decide) (by decide)
     (by decide)⟩

/-- Counterexample to C4: on a first line starting with the known verb
`HEAD`, the method phase classifies the token as `UNKNOWN` (there is no
`HEAD` case in the source) and consumes nothing. -/
theorem methodParse_head_unknown :
    HttpRequestMethodParse "HEAD / HTTP/1.1\r\n\r\n".toList 19 =
      .ok .UNKNOWN "HEAD / HTTP/1.1\r\n\r\n".toList 19 ∧
    HttpRequestMethod.UNKNOWN ≠ HttpRequestMethod.HEAD := by
  refine ⟨by decide, by decide⟩

/-- Counterexample to C1: with the method token `HEAD` — a valid token,
and one of the nine known verbs — the otherwise well-formed message
fails to parse: the method phase does not consume the unrecognized
token, so the URL phase eats `HEAD` and the version phase then fails. -/
theorem requestParse_head_message_fails :
    HttpRequestParse "HEAD / HTTP/1.1\r\nK: V\r\n\r\n".toList 25 = .fail 25 := by
  decide

/-- C7: the final `memset` of `remove_range_vec` zeroes `count` slots at
offset `length - start - count` instead of `length - count`; removing
index 1 from `[1, 2]` therefore zeroes the surviving element: the result
is `[0]`, not `[1]` as the order-preserving contract demands. -/
theorem remove_range_clobbers_survivors :
    (remove_range_vec (⟨[1, 2], 2, none, false⟩ : GenericVec Nat)
        false 1 1).map (fun r => (r.1.slots.take r.1.length, r.1.length)) =
      some ([0], 1) ∧
    ([0] : List Nat) ≠ [1] := by
  refine ⟨rfl, by decide⟩

/-- C3: `HttpResponseSend` never emits the response's header list (the
source carries a `TODO: use headers here`): with one extra header
`X: y` the bytes handed to `send` are exactly the headerless serialization
and differ from the claimed output containing the `X: y` line. -/
theorem responseSend_omits_header_list :
    HttpResponseSend
        ⟨.TEXT_HTML, .NOT_FOUND, [⟨"X".toList, "y".toList⟩],
         "<h1>404</h1>".toList⟩ =
      some ("HTTP/1.1 404 Not Found\r\nServer: beam/0.1\r\nContent-Type: text/html\r\nContent-Length: 12\r\n\r\n<h1>404</h1>").toList ∧
    ("HTTP/1.1 404 Not Found\r\nServer: beam/0.1\r\nContent-Type: text/html\r\nContent-Length: 12\r\n\r\n<h1>404</h1>").toList ≠
      ("HTTP/1.1 404 Not Found\r\nServer: beam/0.1\r\nContent-Type: text/html\r\nContent-Length: 12\r\nX: y\r\n\r\n<h1>404</h1>").toList := by
  set_option maxRecDepth 4096 in
  refine ⟨by decide, by decide⟩

/-! ### Vector lemmas -/

theorem expand_vec_length {α : Type} [Inhabited α] (v : GenericVec α) :
    (expand_vec v).length = v.length := by
  unfold expand_vec
  split <;> rfl

theorem expand_vec_cap_ge {α : Type} [Inhabited α] (v : GenericVec α)
    (h : v.length ≤ v.capacity) :
    v.length + 1 ≤ (expand_vec v).capacity := by
  unfold expand_vec
  split
  · rename_i hgt
    simp only [GenericVec.capacity, List.length_append, List.length_replicate]
    split
    · rename_i hz
      simp only [GenericVec.capacity] at *
      omega
    · rename_i hz
      simp only [GenericVec.capacity] at *
      omega
  · rename_i hle
    omega

theorem reserve_vec_length {α : Type} [Inhabited α] (v : GenericVec α) (n : Nat) :
    (reserve_vec v n).length = v.length := by
  unfold reserve_vec
  split <;> rfl

theorem reserve_vec_cap {α : Type} [Inhabited α] (v : GenericVec α) (n : Nat) :
    (reserve_vec v n).capacity = max v.capacity n := by
  unfold reserve_vec
  split
  · rename_i hgt
    simp only [GenericVec.capacity, List.length_append, List.length_replicate]
    omega
  · rename_i hle
    simp only [GenericVec.capacity] at *
    omega

theorem pow2Loop_ge : ∀ (fuel n2 n : Nat), n ≤ n2 * 2 ^ fuel →
    n ≤ pow2Loop fuel n2 n
  | 0, n2, n, h => by
    simpa [pow2Loop] using h
  | fuel + 1, n2, n, h => by
    unfold pow2Loop
    split
    · exact pow2Loop_ge fuel (n2 * 2) n
        (by
          calc n ≤ n2 * 2 ^ (fuel + 1) := h
          _ = n2 * 2 * 2 ^ fuel := by ring)
    · omega

theorem reserve_pow2_vec_length {α : Type} [Inhabited α] (v : GenericVec α)
    (n : Nat) : (reserve_pow2_vec v n).length = v.length := by
  unfold reserve_pow2_vec
  split
  · rfl
  · exact reserve_vec_length v _

theorem reserve_pow2_vec_cap_ge {α : Type} [Inhabited α] (v : GenericVec α)
    (n : Nat) : v.capacity ≤ (reserve_pow2_vec v n).capacity ∧
      (n ≠ 0 → n ≤ (reserve_pow2_vec v n).capacity) := by
  unfold reserve_pow2_vec
  split
  · rename_i hz
    exact ⟨Nat.le_refl _, fun hn => absurd hz hn⟩
  · rename_i hz
    rw [reserve_vec_cap]
    refine ⟨Nat.le_max_left _ _, fun _ => ?_⟩
    have hp : n ≤ pow2Loop n 1 n := pow2Loop_ge n 1 n (by
      have := Nat.lt_two_pow n
      omega)
    omega

theorem qsortInsert_length {α : Type} (le : α → α → Bool) (x : α) :
    ∀ l : List α, (qsortInsert le x l).length = l.length + 1
  | [] => rfl
  | y :: l => by
    unfold qsortInsert
    split
    · simp
    · simp [qsortInsert_length le x l]

theorem qsortList_length {α : Type} (le : α → α → Bool) :
    ∀ l : List α, (qsortList le l).length = l.length
  | [] => rfl
  | x :: l => by
    unfold qsortList
    rw [qsortInsert_length, qsortList_length le l]
    rfl

theorem swap_vec_pres {α : Type} [Inhabited α] (v w : GenericVec α)
    (i j : Nat) (h : swap_vec v i j = some w) :
    w.length = v.length ∧ w.capacity = v.capacity := by
  unfold swap_vec at h
  split at h
  · cases h
  · split at h
    · cases h
      exact ⟨rfl, rfl⟩
    · cases h
      simp [GenericVec.capacity, setSlice_length]

theorem revLoop_pres {α : Type} [Inhabited α] :
    ∀ (n : Nat) (v : GenericVec α),
      (revLoop n v).length = v.length ∧ (revLoop n v).capacity = v.capacity
  | 0, _ => ⟨rfl, rfl⟩
  | n + 1, v => by
    unfold revLoop
    have hrec := revLoop_pres n ((swap_vec v n (v.length - (n + 1))).getD v)
    match hsw : swap_vec v n (v.length - (n + 1)) with
    | none =>
      rw [hsw] at hrec
      simpa using hrec
    | some w =>
      rw [hsw] at hrec
      simp only [Option.getD_some] at hrec ⊢
      obtain ⟨h1, h2⟩ := swap_vec_pres v w n (v.length - (n + 1)) hsw
      exact ⟨by omega, by omega⟩

/-- C8: growth on single insertion — when `length + 1 > capacity`,
`expand_vec` (and hence a successful `insert_into_vec`) makes the new
capacity `1` from capacity `0` and `2 × capacity` otherwise. -/
theorem expand_vec_doubling {α : Type} [Inhabited α] :
    (∀ v : GenericVec α, v.length + 1 > v.capacity →
      (expand_vec v).capacity = if v.capacity = 0 then 1 else 2 * v.capacity) ∧
    (∀ (v v' : GenericVec α) (item : α) (idx : Nat),
      v.length + 1 > v.capacity → insert_into_vec v item idx = some v' →
      v'.capacity = if v.capacity = 0 then 1 else 2 * v.capacity) := by
  have hexp : ∀ v : GenericVec α, v.length + 1 > v.capacity →
      (expand_vec v).capacity = if v.capacity = 0 then 1 else 2 * v.capacity := by
    intro v h
    unfold expand_vec
    rw [if_pos h]
    simp only [GenericVec.capacity, List.length_append, List.length_replicate]
    split
    · rename_i hz
      simp only [GenericVec.capacity] at *
      omega
    · rename_i hz
      simp only [GenericVec.capacity] at *
      omega
  refine ⟨hexp, fun v v' item idx h hins => ?_⟩
  unfold insert_into_vec at hins
  dsimp only at hins
  split at hins
  · cases hins
    simpa [GenericVec.capacity, setSlice_length] using hexp v h
  · split at hins
    · cases hins
      simpa [GenericVec.capacity, setSlice_length] using hexp v h
    · cases hins

/-- Witness for C8 at capacity 0 (first insertion gives capacity 1) and
capacity 2 (doubling to 4). -/
theorem expand_vec_doubling_witness :
    ((0 : Nat) + 1 > 0 ∧
      (expand_vec (⟨[], 0, none, false⟩ : GenericVec Nat)).capacity =
        if (0 : Nat) = 0 then 1 else 2 * 0) ∧
    ((2 : Nat) + 1 > 2 ∧
      (expand_vec (⟨[5, 6], 2, none, false⟩ : GenericVec Nat)).capacity =
        if (2 : Nat) = 0 then 1 else 2 * 2) :=
  ⟨⟨by decide, expand_vec_doubling.1 ⟨[], 0, none, false⟩ (by decide)⟩,
   ⟨by decide, expand_vec_doubling.1 ⟨[5, 6], 2, none, false⟩ (by decide)⟩⟩

theorem insert_into_vec_inv {α : Type} [Inhabited α]
    (v v' : GenericVec α) (item : α) (idx : Nat)
    (hinv : v.length ≤ v.capacity) (h : insert_into_vec v item idx = some v') :
    v'.length ≤ v'.capacity := by
  have hexp := expand_vec_cap_ge v hinv
  have hlen := expand_vec_length v
  unfold insert_into_vec at h
  dsimp only at h
  split at h
  · cases h
    simp only [GenericVec.capacity, setSlice_length] at *
    omega
  · split at h
    · cases h
      simp only [GenericVec.capacity, setSlice_length] at *
      omega
    · cases h

theorem insert_fast_into_vec_inv {α : Type} [Inhabited α]
    (v v' : GenericVec α) (item : α) (idx : Nat)
    (hinv : v.length ≤ v.capacity)
    (h : insert_fast_into_vec v item idx = some v') :
    v'.length ≤ v'.capacity := by
  have hexp := expand_vec_cap_ge v hinv
  have hlen := expand_vec_length v
  unfold insert_fast_into_vec at h
  dsimp only at h
  split at h
  · cases h
    simp only [GenericVec.capacity, setSlice_length] at *
    omega
  · split at h
    · cases h
      simp only [GenericVec.capacity, setSlice_length] at *
      omega
    · cases h

theorem remove_range_vec_inv {α : Type} [Inhabited α]
    (v v' : GenericVec α) (wantOut : Bool) (start count : Nat)
    (out : Option (List α)) (rel : List α)
    (hinv : v.length ≤ v.capacity)
    (h : remove_range_vec v wantOut start count = some (v', out, rel)) :
    v'.length ≤ v'.capacity := by
  unfold remove_range_vec at h
  dsimp only at h
  split at h
  · cases h
  · rename_i hle
    cases h
    simp only [GenericVec.capacity] at hinv
    simp only [GenericVec.capacity, setSlice_length]
    split
    · dsimp only
      omega
    · split
      · dsimp only
        omega
      · dsimp only
        simp only [setSlice_length]
        omega

theorem fast_remove_range_vec_inv {α : Type} [Inhabited α]
    (v v' : GenericVec α) (wantOut : Bool) (start count : Nat)
    (out : Option (List α)) (rel : List α)
    (hinv : v.length ≤ v.capacity)
    (h : fast_remove_range_vec v wantOut start count = some (v', out, rel)) :
    v'.length ≤ v'.capacity := by
  unfold fast_remove_range_vec at h
  dsimp only at h
  split at h
  · cases h
  · rename_i hle
    cases h
    simp only [GenericVec.capacity] at hinv
    simp only [GenericVec.capacity, setSlice_length]
    split
    · dsimp only
      omega
    · split
      · dsimp only
        omega
      · dsimp only
        simp only [setSlice_length]
        omega

theorem clear_vec_inv {α : Type} [Inhabited α] (v : GenericVec α) :
    (clear_vec v).1.length ≤ (clear_vec v).1.capacity := by
  unfold clear_vec
  split
  · simp
  · split
    · simp
    · simp [GenericVec.capacity]

theorem reserve_vec_inv {α : Type} [Inhabited α] (v : GenericVec α) (n : Nat)
    (hinv : v.length ≤ v.capacity) :
    (reserve_vec v n).length ≤ (reserve_vec v n).capacity := by
  rw [reserve_vec_length, reserve_vec_cap]
  omega

theorem reserve_pow2_vec_inv {α : Type} [Inhabited α] (v : GenericVec α)
    (n : Nat) (hinv : v.length ≤ v.capacity) :
    (reserve_pow2_vec v n).length ≤ (reserve_pow2_vec v n).capacity := by
  rw [reserve_pow2_vec_length]
  have := (reserve_pow2_vec_cap_ge v n).1
  omega

theorem push_arr_vec_inv {α : Type} [Inhabited α]
    (v v' : GenericVec α) (arr : List α) (count pos : Nat)
    (hinv : v.length ≤ v.capacity)
    (h : push_arr_vec v arr count pos = some v') :
    v'.length ≤ v'.capacity := by
  unfold push_arr_vec at h
  dsimp only at h
  split at h
  · cases h
  · split at h
    · cases h
    · rename_i hcnt hpos
      cases h
      simp only [GenericVec.capacity, setSlice_length]
      have hl := reserve_pow2_vec_length v (v.length + count)
      have hc := (reserve_pow2_vec_cap_ge v (v.length + count)).2
        (by omega)
      simp only [GenericVec.capacity] at hc
      split
      · simp only [setSlice_length]
        omega
      · omega

theorem swap_vec_inv {α : Type} [Inhabited α] (v v' : GenericVec α)
    (i j : Nat) (hinv : v.length ≤ v.capacity)
    (h : swap_vec v i j = some v') : v'.length ≤ v'.capacity := by
  obtain ⟨h1, h2⟩ := swap_vec_pres v v' i j h
  omega

theorem reverse_vec_inv {α : Type} [Inhabited α] (v : GenericVec α)
    (hinv : v.length ≤ v.capacity) :
    (reverse_vec v).length ≤ (reverse_vec v).capacity := by
  unfold reverse_vec
  obtain ⟨h1, h2⟩ := revLoop_pres (v.length / 2) v
  omega

theorem qsort_vec_inv {α : Type} (v : GenericVec α) (comp : α → α → Int)
    (hinv : v.length ≤ v.capacity) :
    (qsort_vec v comp).length ≤ (qsort_vec v comp).capacity := by
  unfold qsort_vec
  simp only [GenericVec.capacity, List.length_append, qsortList_length,
    List.length_take, List.length_drop]
  simp only [GenericVec.capacity] at hinv
  omega

theorem resize_vec_inv {α : Type} [Inhabited α] (v : GenericVec α)
    (new_size : Nat) (hinv : v.length ≤ v.capacity) :
    (resize_vec v new_size).1.length ≤ (resize_vec v new_size).1.capacity := by
  unfold resize_vec
  split
  · rename_i hle
    split
    · rename_i hlt
      match hrr : remove_range_vec v false new_size (v.length - new_size) with
      | some (w, out, rel) =>
        dsimp only
        unfold remove_range_vec at hrr
        dsimp only at hrr
        split at hrr
        · cases hrr
        · cases hrr
          simp only [GenericVec.capacity] at hinv
          simp only [GenericVec.capacity, setSlice_length]
          split
          · dsimp only
            omega
          · split
            · dsimp only
              omega
            · dsimp only
              simp only [setSlice_length]
              omega
      | none =>
        dsimp only
        exact hle
    · exact hle
  · rename_i hgt
    dsimp only
    have := (reserve_pow2_vec_cap_ge v new_size).2 (by omega)
    exact this

/-- C9: every growable-vector operation (insert, fast insert, remove
range, fast remove range, clear, resize, reserve, power-of-two reserve,
bulk array push, swap, reverse, sort) preserves `length ≤ capacity` on
every successfully returned vector. -/
theorem vec_ops_preserve_invariant {α : Type} [Inhabited α] :
    (∀ (v v' : GenericVec α) (item : α) (idx : Nat), v.length ≤ v.capacity →
      insert_into_vec v item idx = some v' → v'.length ≤ v'.capacity) ∧
    (∀ (v v' : GenericVec α) (item : α) (idx : Nat), v.length ≤ v.capacity →
      insert_fast_into_vec v item idx = some v' → v'.length ≤ v'.capacity) ∧
    (∀ (v v' : GenericVec α) (wantOut : Bool) (start count : Nat)
      (out : Option (List α)) (rel : List α), v.length ≤ v.capacity →
      remove_range_vec v wantOut start count = some (v', out, rel) →
      v'.length ≤ v'.capacity) ∧
    (∀ (v v' : GenericVec α) (wantOut : Bool) (start count : Nat)
      (out : Option (List α)) (rel : List α), v.length ≤ v.capacity →
      fast_remove_range_vec v wantOut start count = some (v', out, rel) →
      v'.length ≤ v'.capacity) ∧
    (∀ v : GenericVec α, (clear_vec v).1.length ≤ (clear_vec v).1.capacity) ∧
    (∀ (v : GenericVec α) (new_size : Nat), v.length ≤ v.capacity →
      (resize_vec v new_size).1.length ≤ (resize_vec v new_size).1.capacity) ∧
    (∀ (v : GenericVec α) (n : Nat), v.length ≤ v.capacity →
      (reserve_vec v n).length ≤ (reserve_vec v n).capacity) ∧
    (∀ (v : GenericVec α) (n : Nat), v.length ≤ v.capacity →
      (reserve_pow2_vec v n).length ≤ (reserve_pow2_vec v n).capacity) ∧
    (∀ (v v' : GenericVec α) (arr : List α) (count pos : Nat),
      v.length ≤ v.capacity → push_arr_vec v arr count pos = some v' →
      v'.length ≤ v'.capacity) ∧
    (∀ (v v' : GenericVec α) (i j : Nat), v.length ≤ v.capacity →
      swap_vec v i j = some v' → v'.length ≤ v'.capacity) ∧
    (∀ v : GenericVec α, v.length ≤ v.capacity →
      (reverse_vec v).length ≤ (reverse_vec v).capacity) ∧
    (∀ (v : GenericVec α) (comp : α → α → Int), v.length ≤ v.capacity →
      (qsort_vec v comp).length ≤ (qsort_vec v comp).capacity) :=
  ⟨fun v v' item idx hi h => insert_into_vec_inv v v' item idx hi h,
   fun v v' item idx hi h => insert_fast_into_vec_inv v v' item idx hi h,
   fun v v' w s c o r hi h => remove_range_vec_inv v v' w s c o r hi h,
   fun v v' w s c o r hi h => fast_remove_range_vec_inv v v' w s c o r hi h,
   fun v => clear_vec_inv v,
   fun v n hi => resize_vec_inv v n hi,
   fun v n hi => reserve_vec_inv v n hi,
   fun v n hi => reserve_pow2_vec_inv v n hi,
   fun v v' a c p hi h => push_arr_vec_inv v v' a c p hi h,
   fun v v' i j hi h => swap_vec_inv v v' i j hi h,
   fun v hi => reverse_vec_inv v hi,
   fun v comp hi => qsort_vec_inv v comp hi⟩

/-- Witness for C9: an insertion into a full one-element vector keeps
`length ≤ capacity`. -/
theorem vec_ops_preserve_invariant_witness :
    ((1 : Nat) ≤ 1 ∧
      insert_into_vec (⟨[7], 1, none, false⟩ : GenericVec Nat) 9 1 =
        some ⟨[7, 9], 2, none, false⟩) ∧
    (⟨[7, 9], 2, none, false⟩ : GenericVec Nat).length ≤
      (⟨[7, 9], 2, none, false⟩ : GenericVec Nat).capacity :=
  ⟨⟨by decide, rfl⟩,
   vec_ops_preserve_invariant.1 ⟨[7], 1, none, false⟩ ⟨[7, 9], 2, none, false⟩
     9 1 (by decide) rfl⟩

theorem remove_range_vec_dest {α : Type} [Inhabited α]
    (v v' : GenericVec α) (wantOut : Bool) (start count : Nat)
    (out : Option (List α)) (rel : List α)
    (h : remove_range_vec v wantOut start count = some (v', out, rel)) :
    (wantOut = true → out = some (readSlice v.slots start count) ∧ rel = []) ∧
    (wantOut = false → out = none ∧
      rel = if v.has_copy_deinit then readSlice v.slots start count else []) := by
  cases wantOut with
  | true =>
    unfold remove_range_vec at h
    dsimp only at h
    split at h
    · cases h
    · simp only [if_true] at h
      simp only [Option.some.injEq, Prod.mk.injEq] at h
      obtain ⟨-, ho, hr⟩ := h
      exact ⟨fun _ => ⟨ho.symm, hr.symm⟩, fun hf => absurd hf (by decide)⟩
  | false =>
    unfold remove_range_vec at h
    dsimp only at h
    split at h
    · cases h
    · rw [if_neg (by simp)] at h
      split at h
      · rename_i hd
        dsimp only at h
        simp only [Option.some.injEq, Prod.mk.injEq] at h
        obtain ⟨-, ho, hr⟩ := h
        constructor
        · intro ht
          exact absurd ht (by decide)
        · intro hf
          rw [if_pos hd]
          exact ⟨ho.symm, hr.symm⟩
      · rename_i hd
        dsimp only at h
        simp only [Option.some.injEq, Prod.mk.injEq] at h
        obtain ⟨-, ho, hr⟩ := h
        constructor
        · intro ht
          exact absurd ht (by decide)
        · intro hf
          rw [if_neg hd]
          exact ⟨ho.symm, hr.symm⟩

theorem fast_remove_range_vec_dest {α : Type} [Inhabited α]
    (v v' : GenericVec α) (wantOut : Bool) (start count : Nat)
    (out : Option (List α)) (rel : List α)
    (h : fast_remove_range_vec v wantOut start count = some (v', out, rel)) :
    (wantOut = true → out = some (readSlice v.slots start count) ∧ rel = []) ∧
    (wantOut = false → out = none ∧
      rel = if v.has_copy_deinit then readSlice v.slots start count else []) := by
  cases wantOut with
  | true =>
    unfold fast_remove_range_vec at h
    dsimp only at h
    split at h
    · cases h
    · simp only [if_true] at h
      simp only [Option.some.injEq, Prod.mk.injEq] at h
      obtain ⟨-, ho, hr⟩ := h
      exact ⟨fun _ => ⟨ho.symm, hr.symm⟩, fun hf => absurd hf (by decide)⟩
  | false =>
    unfold fast_remove_range_vec at h
    dsimp only at h
    split at h
    · cases h
    · rw [if_neg (by simp)] at h
      split at h
      · rename_i hd
        dsimp only at h
        simp only [Option.some.injEq, Prod.mk.injEq] at h
        obtain ⟨-, ho, hr⟩ := h
        constructor
        · intro ht
          exact absurd ht (by decide)
        · intro hf
          rw [if_pos hd]
          exact ⟨ho.symm, hr.symm⟩
      · rename_i hd
        dsimp only at h
        simp only [Option.some.injEq, Prod.mk.injEq] at h
        obtain ⟨-, ho, hr⟩ := h
        constructor
        · intro ht
          exact absurd ht (by decide)
        · intro hf
          rw [if_neg hd]
          exact ⟨ho.symm, hr.symm⟩

/-- C10: for both remove functions, a supplied destination receives a
bytewise copy of the `count` removed elements `[start, start + count)`
and the `copy_deinit` hook is not invoked on them (the release trace is
empty — ownership transfers to the caller); without a destination the
hook is invoked exactly on the removed elements when present. -/
theorem remove_range_dest_and_hook {α : Type} [Inhabited α] :
    (∀ (v v' : GenericVec α) (wantOut : Bool) (start count : Nat)
      (out : Option (List α)) (rel : List α),
      remove_range_vec v wantOut start count = some (v', out, rel) →
      (wantOut = true →
        out = some (readSlice v.slots start count) ∧ rel = []) ∧
      (wantOut = false → out = none ∧
        rel = if v.has_copy_deinit then readSlice v.slots start count
          else [])) ∧
    (∀ (v v' : GenericVec α) (wantOut : Bool) (start count : Nat)
      (out : Option (List α)) (rel : List α),
      fast_remove_range_vec v wantOut start count = some (v', out, rel) →
      (wantOut = true →
        out = some (readSlice v.slots start count) ∧ rel = []) ∧
      (wantOut = false → out = none ∧
        rel = if v.has_copy_deinit then readSlice v.slots start count
          else [])) :=
  ⟨fun v v' w s c o r h => remove_range_vec_dest v v' w s c o r h,
   fun v v' w s c o r h => fast_remove_range_vec_dest v v' w s c o r h⟩

/-- Witness for C10: removing one element with a destination copies it
out and releases nothing. -/
theorem remove_range_dest_and_hook_witness :
    remove_range_vec (⟨[1, 2, 3], 3, none, false⟩ : GenericVec Nat) true 1 1 =
      some (⟨[1, 0, 3], 2, none, false⟩, some [2], []) ∧
    (some [2] = some (readSlice [1, 2, 3] 1 1) ∧ ([] : List Nat) = []) :=
  ⟨by rfl,
   (remove_range_dest_and_hook.1 ⟨[1, 2, 3], 3, none, false⟩
     ⟨[1, 0, 3], 2, none, false⟩ true 1 1 (some [2]) [] (by rfl)).1 rfl⟩

end Beam
